import Mathlib

/-!
Verification of the document-processing reconciliation loop of
paperless-llm-processor (batch mode).

The definitions below are a shallow embedding of the Go source:
  * `cmd/batch/main.go` — the merge loop, the update-payload construction,
    the selective-field mask parsing and the per-document pipeline;
  * `internal/paperless/client.go` — `ListUnprocessedDocuments`,
    `EnsureTag`, `EnsureCorrespondent`.
External HTTP collaborators (the Paperless store, the Ollama endpoint, the
rasterizer) are modelled as oracles/inputs: each document input carries the
outcome of its download, its conversion and its per-page analyses, and the
store is a list of documents with their custom-field values, over which the
documented query operators (`exists`, `lt`, `exact`) are evaluated.
-/

namespace PaperlessLLM

/-- Mirrors `ollama.DocumentAnalysis` (internal/ollama/client.go): the
structured result of analyzing one page, and also the type of the merged
document-level aggregate built in `cmd/batch/main.go`. -/
structure DocumentAnalysis where
  summary : String
  transcription : String
  file_name : String
  document_type : String
  document_date : String
  correspondent : String
  tags : List String
deriving DecidableEq

/-- The zero value of `ollama.DocumentAnalysis` (`var merged ollama.DocumentAnalysis`). -/
def emptyAnalysis : DocumentAnalysis :=
  { summary := "", transcription := "", file_name := "", document_type := ""
    document_date := "", correspondent := "", tags := [] }

/-- The mutable state of the per-document page loop in `cmd/batch/main.go`:
`merged`, the `summaries` and `transcriptions` slices, and the `seenTags`
set (modelled as the list of keys inserted so far). -/
structure MergeState where
  merged : DocumentAnalysis
  summaries : List String
  transcriptions : List String
  seenTags : List String
deriving DecidableEq

/-- Initial loop state: zero-valued `merged`, empty slices, empty `seenTags` map. -/
def initState : MergeState :=
  { merged := emptyAnalysis, summaries := [], transcriptions := [], seenTags := [] }

/-- One iteration of the inner tag loop of `cmd/batch/main.go` (lines 193-198):
`if t != "" && !seenTags[t] { seenTags[t] = true; merged.Tags = append(merged.Tags, t) }`. -/
def addTag (st : MergeState) (t : String) : MergeState :=
  if t ≠ "" ∧ t ∉ st.seenTags then
    { st with seenTags := st.seenTags ++ [t],
              merged := { st.merged with tags := st.merged.tags ++ [t] } }
  else st

/-- The four singular-field fills of `cmd/batch/main.go` (lines 178-190):
each still-empty field of the running `merged` record is filled from the
page when the page supplies a non-empty value ("first page wins"). -/
def fillSingulars (m p : DocumentAnalysis) : DocumentAnalysis :=
  let m1 := if m.file_name = "" ∧ p.file_name ≠ "" then { m with file_name := p.file_name } else m
  let m2 := if m1.document_type = "" ∧ p.document_type ≠ "" then
      { m1 with document_type := p.document_type } else m1
  let m3 := if m2.document_date = "" ∧ p.document_date ≠ "" then
      { m2 with document_date := p.document_date } else m2
  if m3.correspondent = "" ∧ p.correspondent ≠ "" then
    { m3 with correspondent := p.correspondent } else m3

/-- One iteration of the page loop of `cmd/batch/main.go` (lines 171-200),
given a successfully analyzed page `p`: append non-empty summary and
transcription to the collected slices, fill each still-empty singular field
from `p` when `p` supplies a non-empty value, then run the tag loop over
`p.tags`. -/
def mergePage (st : MergeState) (p : DocumentAnalysis) : MergeState :=
  p.tags.foldl addTag
    { merged := fillSingulars st.merged p,
      summaries := if p.summary ≠ "" then st.summaries ++ [p.summary] else st.summaries,
      transcriptions :=
        if p.transcription ≠ "" then st.transcriptions ++ [p.transcription]
        else st.transcriptions,
      seenTags := st.seenTags }

/-- After the page loop, `cmd/batch/main.go` (lines 206-207) joins the
collected summaries and transcriptions with `"\n\n"` (Go `strings.Join`). -/
def finalizeMerge (st : MergeState) : DocumentAnalysis :=
  { st.merged with
      summary := String.intercalate "\n\n" st.summaries,
      transcription := String.intercalate "\n\n" st.transcriptions }

/-- The merged document-level analysis produced from a list of successful
page analyses, in page order: the composition of the page loop and the
final joins. -/
def mergePages (pages : List DocumentAnalysis) : DocumentAnalysis :=
  finalizeMerge (pages.foldl mergePage initState)

/-- Spec-side helper: the first non-empty string of a list, or `""` when
there is none ("first page that supplies a non-empty value wins"). -/
def firstNonEmpty (l : List String) : String :=
  (l.find? (fun s => s ≠ "")).getD ""

/-- Spec-side helper: deduplicate a list of strings by exact match, keeping
the first occurrence of each element, preserving first-seen order. -/
def dedupFirstOccurrence (l : List String) : List String :=
  l.foldl (fun acc t => if t ∈ acc then acc else acc ++ [t]) []

/-- The accumulator actually implemented by the tag loop: insert a tag only
if it is non-empty and not yet present. -/
def dedupNonEmptyFrom (acc : List String) (l : List String) : List String :=
  l.foldl (fun a t => if t ≠ "" ∧ t ∉ a then a ++ [t] else a) acc

/-- Spec-side helper: `dedupFirstOccurrence` generalized to start from an
accumulator. -/
def dedupFrom (acc : List String) (l : List String) : List String :=
  l.foldl (fun a t => if t ∈ a then a else a ++ [t]) acc

/-- Spec-side helper: "first non-empty wins" as a fold threading the current
value of the field. -/
def firstNonEmptyFrom (cur : String) (l : List String) : String :=
  l.foldl (fun c s => if c = "" ∧ s ≠ "" then s else c) cur

/-! ### Lemmas about the tag loop -/

lemma foldl_addTag_summaries (l : List String) (st : MergeState) :
    (l.foldl addTag st).summaries = st.summaries := by
  induction l generalizing st with
  | nil => rfl
  | cons t ts ih =>
    rw [List.foldl_cons, ih]
    unfold addTag
    split <;> rfl

lemma foldl_addTag_transcriptions (l : List String) (st : MergeState) :
    (l.foldl addTag st).transcriptions = st.transcriptions := by
  induction l generalizing st with
  | nil => rfl
  | cons t ts ih =>
    rw [List.foldl_cons, ih]
    unfold addTag
    split <;> rfl

lemma foldl_addTag_file_name (l : List String) (st : MergeState) :
    (l.foldl addTag st).merged.file_name = st.merged.file_name := by
  induction l generalizing st with
  | nil => rfl
  | cons t ts ih =>
    rw [List.foldl_cons, ih]
    unfold addTag
    split <;> rfl

lemma foldl_addTag_document_type (l : List String) (st : MergeState) :
    (l.foldl addTag st).merged.document_type = st.merged.document_type := by
  induction l generalizing st with
  | nil => rfl
  | cons t ts ih =>
    rw [List.foldl_cons, ih]
    unfold addTag
    split <;> rfl

lemma foldl_addTag_document_date (l : List String) (st : MergeState) :
    (l.foldl addTag st).merged.document_date = st.merged.document_date := by
  induction l generalizing st with
  | nil => rfl
  | cons t ts ih =>
    rw [List.foldl_cons, ih]
    unfold addTag
    split <;> rfl

lemma foldl_addTag_correspondent (l : List String) (st : MergeState) :
    (l.foldl addTag st).merged.correspondent = st.merged.correspondent := by
  induction l generalizing st with
  | nil => rfl
  | cons t ts ih =>
    rw [List.foldl_cons, ih]
    unfold addTag
    split <;> rfl

lemma foldl_addTag_summary (l : List String) (st : MergeState) :
    (l.foldl addTag st).merged.summary = st.merged.summary := by
  induction l generalizing st with
  | nil => rfl
  | cons t ts ih =>
    rw [List.foldl_cons, ih]
    unfold addTag
    split <;> rfl

lemma foldl_addTag_transcription (l : List String) (st : MergeState) :
    (l.foldl addTag st).merged.transcription = st.merged.transcription := by
  induction l generalizing st with
  | nil => rfl
  | cons t ts ih =>
    rw [List.foldl_cons, ih]
    unfold addTag
    split <;> rfl

lemma addTag_pos (st : MergeState) (t : String) (h : t ≠ "" ∧ t ∉ st.seenTags) :
    addTag st t =
      { st with seenTags := st.seenTags ++ [t],
                merged := { st.merged with tags := st.merged.tags ++ [t] } } := by
  unfold addTag
  rw [if_pos h]

lemma addTag_neg (st : MergeState) (t : String) (h : ¬(t ≠ "" ∧ t ∉ st.seenTags)) :
    addTag st t = st := by
  unfold addTag
  rw [if_neg h]

lemma dedupNonEmptyFrom_cons (acc : List String) (t : String) (ts : List String) :
    dedupNonEmptyFrom acc (t :: ts) =
      dedupNonEmptyFrom (if t ≠ "" ∧ t ∉ acc then acc ++ [t] else acc) ts := rfl

/-- The tag loop grows `merged.tags` exactly as `dedupNonEmptyFrom`, and keeps
`seenTags` equal to `merged.tags` when they start equal. -/
lemma foldl_addTag_tags (l : List String) (st : MergeState)
    (hinv : st.seenTags = st.merged.tags) :
    (l.foldl addTag st).merged.tags = dedupNonEmptyFrom st.merged.tags l ∧
      (l.foldl addTag st).seenTags = (l.foldl addTag st).merged.tags := by
  induction l generalizing st with
  | nil => exact ⟨rfl, hinv⟩
  | cons t ts ih =>
    rw [List.foldl_cons, dedupNonEmptyFrom_cons]
    by_cases h : t ≠ "" ∧ t ∉ st.seenTags
    · rw [addTag_pos st t h, if_pos (hinv ▸ h)]
      exact ih _ (by simp [hinv])
    · rw [addTag_neg st t h, if_neg (hinv ▸ h)]
      exact ih st hinv

/-! ### Projections of `fillSingulars` and `mergePage` -/

lemma fillSingulars_file_name (m p : DocumentAnalysis) :
    (fillSingulars m p).file_name =
      if m.file_name = "" ∧ p.file_name ≠ "" then p.file_name else m.file_name := by
  simp only [fillSingulars]
  split <;> split <;> split <;> split <;> simp_all

lemma fillSingulars_document_type (m p : DocumentAnalysis) :
    (fillSingulars m p).document_type =
      if m.document_type = "" ∧ p.document_type ≠ "" then p.document_type
      else m.document_type := by
  simp only [fillSingulars]
  split <;> split <;> split <;> split <;> simp_all

lemma fillSingulars_document_date (m p : DocumentAnalysis) :
    (fillSingulars m p).document_date =
      if m.document_date = "" ∧ p.document_date ≠ "" then p.document_date
      else m.document_date := by
  simp only [fillSingulars]
  split <;> split <;> split <;> split <;> simp_all

lemma fillSingulars_correspondent (m p : DocumentAnalysis) :
    (fillSingulars m p).correspondent =
      if m.correspondent = "" ∧ p.correspondent ≠ "" then p.correspondent
      else m.correspondent := by
  simp only [fillSingulars]
  split <;> split <;> split <;> split <;> simp_all

lemma fillSingulars_tags (m p : DocumentAnalysis) : (fillSingulars m p).tags = m.tags := by
  simp only [fillSingulars]
  split <;> split <;> split <;> split <;> simp_all

lemma mergePage_summaries (st : MergeState) (p : DocumentAnalysis) :
    (mergePage st p).summaries =
      if p.summary ≠ "" then st.summaries ++ [p.summary] else st.summaries := by
  simp only [mergePage, foldl_addTag_summaries]

lemma mergePage_transcriptions (st : MergeState) (p : DocumentAnalysis) :
    (mergePage st p).transcriptions =
      if p.transcription ≠ "" then st.transcriptions ++ [p.transcription]
      else st.transcriptions := by
  simp only [mergePage, foldl_addTag_transcriptions]

lemma mergePage_file_name (st : MergeState) (p : DocumentAnalysis) :
    (mergePage st p).merged.file_name = (fillSingulars st.merged p).file_name := by
  simp only [mergePage, foldl_addTag_file_name]

lemma mergePage_document_type (st : MergeState) (p : DocumentAnalysis) :
    (mergePage st p).merged.document_type = (fillSingulars st.merged p).document_type := by
  simp only [mergePage, foldl_addTag_document_type]

lemma mergePage_document_date (st : MergeState) (p : DocumentAnalysis) :
    (mergePage st p).merged.document_date = (fillSingulars st.merged p).document_date := by
  simp only [mergePage, foldl_addTag_document_date]

lemma mergePage_correspondent (st : MergeState) (p : DocumentAnalysis) :
    (mergePage st p).merged.correspondent = (fillSingulars st.merged p).correspondent := by
  simp only [mergePage, foldl_addTag_correspondent]

lemma mergePage_tags (st : MergeState) (p : DocumentAnalysis)
    (hinv : st.seenTags = st.merged.tags) :
    (mergePage st p).merged.tags = dedupNonEmptyFrom st.merged.tags p.tags ∧
      (mergePage st p).seenTags = (mergePage st p).merged.tags := by
  have h := foldl_addTag_tags p.tags
    { merged := fillSingulars st.merged p,
      summaries := if p.summary ≠ "" then st.summaries ++ [p.summary] else st.summaries,
      transcriptions :=
        if p.transcription ≠ "" then st.transcriptions ++ [p.transcription]
        else st.transcriptions,
      seenTags := st.seenTags }
    (by simp [hinv, fillSingulars_tags])
  simpa [mergePage, fillSingulars_tags] using h

/-! ### Accumulation across the page loop -/

lemma foldl_mergePage_summaries (pages : List DocumentAnalysis) (st : MergeState) :
    (pages.foldl mergePage st).summaries =
      st.summaries ++ (pages.map (fun p => p.summary)).filter (fun s => s ≠ "") := by
  induction pages generalizing st with
  | nil => simp
  | cons p ps ih =>
    rw [List.foldl_cons, ih, mergePage_summaries]
    by_cases h : p.summary = "" <;> simp [h, List.filter_cons]

lemma foldl_mergePage_transcriptions (pages : List DocumentAnalysis) (st : MergeState) :
    (pages.foldl mergePage st).transcriptions =
      st.transcriptions ++ (pages.map (fun p => p.transcription)).filter (fun s => s ≠ "") := by
  induction pages generalizing st with
  | nil => simp
  | cons p ps ih =>
    rw [List.foldl_cons, ih, mergePage_transcriptions]
    by_cases h : p.transcription = "" <;> simp [h, List.filter_cons]

lemma foldl_mergePage_file_name (pages : List DocumentAnalysis) (st : MergeState) :
    (pages.foldl mergePage st).merged.file_name =
      firstNonEmptyFrom st.merged.file_name (pages.map (fun p => p.file_name)) := by
  induction pages generalizing st with
  | nil => rfl
  | cons p ps ih =>
    rw [List.foldl_cons, ih, mergePage_file_name, fillSingulars_file_name]
    rfl

lemma foldl_mergePage_document_type (pages : List DocumentAnalysis) (st : MergeState) :
    (pages.foldl mergePage st).merged.document_type =
      firstNonEmptyFrom st.merged.document_type (pages.map (fun p => p.document_type)) := by
  induction pages generalizing st with
  | nil => rfl
  | cons p ps ih =>
    rw [List.foldl_cons, ih, mergePage_document_type, fillSingulars_document_type]
    rfl

lemma foldl_mergePage_document_date (pages : List DocumentAnalysis) (st : MergeState) :
    (pages.foldl mergePage st).merged.document_date =
      firstNonEmptyFrom st.merged.document_date (pages.map (fun p => p.document_date)) := by
  induction pages generalizing st with
  | nil => rfl
  | cons p ps ih =>
    rw [List.foldl_cons, ih, mergePage_document_date, fillSingulars_document_date]
    rfl

lemma foldl_mergePage_correspondent (pages : List DocumentAnalysis) (st : MergeState) :
    (pages.foldl mergePage st).merged.correspondent =
      firstNonEmptyFrom st.merged.correspondent (pages.map (fun p => p.correspondent)) := by
  induction pages generalizing st with
  | nil => rfl
  | cons p ps ih =>
    rw [List.foldl_cons, ih, mergePage_correspondent, fillSingulars_correspondent]
    rfl

lemma foldl_mergePage_tags (pages : List DocumentAnalysis) (st : MergeState)
    (hinv : st.seenTags = st.merged.tags) :
    (pages.foldl mergePage st).merged.tags =
      dedupNonEmptyFrom st.merged.tags ((pages.map (fun p => p.tags)).flatten) ∧
      (pages.foldl mergePage st).seenTags = (pages.foldl mergePage st).merged.tags := by
  induction pages generalizing st with
  | nil => exact ⟨by simp [dedupNonEmptyFrom], hinv⟩
  | cons p ps ih =>
    obtain ⟨h1, h2⟩ := mergePage_tags st p hinv
    obtain ⟨h3, h4⟩ := ih (mergePage st p) h2
    rw [List.foldl_cons]
    refine ⟨?_, h4⟩
    rw [h3, h1]
    simp [dedupNonEmptyFrom, List.foldl_append]

/-! ### Bridging the implementation folds to the spec-side functions -/

lemma firstNonEmptyFrom_of_ne (l : List String) (cur : String) (h : cur ≠ "") :
    firstNonEmptyFrom cur l = cur := by
  induction l generalizing cur with
  | nil => rfl
  | cons s ss ih =>
    simp only [firstNonEmptyFrom, List.foldl_cons]
    rw [if_neg (by tauto)]
    exact ih cur h

lemma firstNonEmptyFrom_cons (cur s : String) (ss : List String) :
    firstNonEmptyFrom cur (s :: ss) =
      firstNonEmptyFrom (if cur = "" ∧ s ≠ "" then s else cur) ss := rfl

lemma firstNonEmptyFrom_empty (l : List String) :
    firstNonEmptyFrom "" l = firstNonEmpty l := by
  induction l with
  | nil => rfl
  | cons s ss ih =>
    rw [firstNonEmptyFrom_cons]
    by_cases h : s = ""
    · subst h
      rw [ite_self, ih]
      unfold firstNonEmpty
      rw [List.find?_cons_of_neg _ (by simp)]
    · rw [if_pos ⟨rfl, h⟩, firstNonEmptyFrom_of_ne ss s h]
      unfold firstNonEmpty
      rw [List.find?_cons_of_pos _ (by simp [h])]
      rfl

lemma dedupFrom_cons (acc : List String) (t : String) (ts : List String) :
    dedupFrom acc (t :: ts) =
      dedupFrom (if t ∈ acc then acc else acc ++ [t]) ts := rfl

lemma dedupNonEmptyFrom_eq_dedupFrom_filter (l : List String) :
    ∀ acc : List String, "" ∉ acc →
      dedupNonEmptyFrom acc l = dedupFrom acc (l.filter (fun s => s ≠ "")) := by
  induction l with
  | nil => intro acc _; rfl
  | cons t ts ih =>
    intro acc hacc
    rw [dedupNonEmptyFrom_cons, List.filter_cons]
    by_cases ht : t = ""
    · subst ht
      rw [if_neg (by simp), if_neg (by simp)]
      exact ih acc hacc
    · have hfilter : decide (t ≠ "") = true := by simp [ht]
      rw [if_pos hfilter, dedupFrom_cons]
      by_cases hm : t ∈ acc
      · rw [if_neg (show ¬(t ≠ "" ∧ t ∉ acc) from by tauto), if_pos hm]
        exact ih acc hacc
      · rw [if_pos (show t ≠ "" ∧ t ∉ acc from ⟨ht, hm⟩), if_neg hm]
        exact ih (acc ++ [t]) (by simp [hacc]; exact fun hh => ht hh.symm)

lemma dedupNonEmptyFrom_nodup (l : List String) :
    ∀ acc : List String, acc.Nodup → (dedupNonEmptyFrom acc l).Nodup := by
  induction l with
  | nil => intro acc h; exact h
  | cons t ts ih =>
    intro acc hacc
    simp only [dedupNonEmptyFrom, List.foldl_cons]
    by_cases hc : t ≠ "" ∧ t ∉ acc
    · rw [if_pos hc]
      exact ih (acc ++ [t]) (by simp [List.nodup_append, hacc, hc.2])
    · rw [if_neg hc]
      exact ih acc hacc

lemma dedupNonEmptyFrom_empty_not_mem (l : List String) :
    ∀ acc : List String, "" ∉ acc → "" ∉ dedupNonEmptyFrom acc l := by
  induction l with
  | nil => intro acc h; exact h
  | cons t ts ih =>
    intro acc hacc
    simp only [dedupNonEmptyFrom, List.foldl_cons]
    by_cases hc : t ≠ "" ∧ t ∉ acc
    · rw [if_pos hc]
      exact ih (acc ++ [t]) (by simp [hacc, Ne.symm hc.1])
    · rw [if_neg hc]
      exact ih acc hacc

/-- The merged tag list, characterized by the tag-loop accumulator. -/
lemma mergePages_tags_acc (pages : List DocumentAnalysis) :
    (mergePages pages).tags =
      dedupNonEmptyFrom [] ((pages.map (fun p => p.tags)).flatten) := by
  exact (foldl_mergePage_tags pages initState rfl).1

/-- The merged tag list equals the first-occurrence dedup of the non-empty
page tags, concatenated in page order. -/
lemma mergePages_tags_eq (pages : List DocumentAnalysis) :
    (mergePages pages).tags =
      dedupFirstOccurrence
        (((pages.map (fun p => p.tags)).flatten).filter (fun t => t ≠ "")) := by
  rw [mergePages_tags_acc, dedupNonEmptyFrom_eq_dedupFrom_filter _ [] (by simp)]
  rfl

/-! ### Claims C4, C5, C6, C10 — the merge step -/

/-- C4: every singular merged field (`file_name`, `document_type`,
`document_date`, `correspondent`) equals the value of the first page (in
page order) supplying a non-empty value, and is empty when no page supplies
one — later pages never override. In particular, for pages
`[{file_name:"", type:"A"}, {file_name:"B", type:"C"}]` the merged
`file_name` is `"B"` and the merged `document_type` is `"A"`. -/
theorem merge_singular_first_nonempty_wins (pages : List DocumentAnalysis) :
    (mergePages pages).file_name = firstNonEmpty (pages.map (fun p => p.file_name)) ∧
    (mergePages pages).document_type = firstNonEmpty (pages.map (fun p => p.document_type)) ∧
    (mergePages pages).document_date = firstNonEmpty (pages.map (fun p => p.document_date)) ∧
    (mergePages pages).correspondent = firstNonEmpty (pages.map (fun p => p.correspondent)) ∧
    (mergePages [⟨"", "", "", "A", "", "", []⟩, ⟨"", "", "B", "C", "", "", []⟩]).file_name
      = "B" ∧
    (mergePages [⟨"", "", "", "A", "", "", []⟩, ⟨"", "", "B", "C", "", "", []⟩]).document_type
      = "A" := by
  refine ⟨?_, ?_, ?_, ?_, by decide, by decide⟩
  · rw [show (mergePages pages).file_name
        = (pages.foldl mergePage initState).merged.file_name from rfl,
      foldl_mergePage_file_name]
    exact firstNonEmptyFrom_empty _
  · rw [show (mergePages pages).document_type
        = (pages.foldl mergePage initState).merged.document_type from rfl,
      foldl_mergePage_document_type]
    exact firstNonEmptyFrom_empty _
  · rw [show (mergePages pages).document_date
        = (pages.foldl mergePage initState).merged.document_date from rfl,
      foldl_mergePage_document_date]
    exact firstNonEmptyFrom_empty _
  · rw [show (mergePages pages).correspondent
        = (pages.foldl mergePage initState).merged.correspondent from rfl,
      foldl_mergePage_correspondent]
    exact firstNonEmptyFrom_empty _

/-- C5, counterexample: for a page whose tag list is `[""]`, the merged tag
list is `[]`, not the first-occurrence dedup `[""]` of the union of the
pages' tag lists — the claim as stated fails on pages carrying an empty-string
tag. -/
theorem merge_tags_union_counterexample :
    (mergePages [{ emptyAnalysis with tags := [""] }]).tags ≠
      dedupFirstOccurrence
        (([{ emptyAnalysis with tags := [""] }].map (fun p => p.tags)).flatten) := by
  decide

/-- C5, amended: the merged tag list is the union of the pages' NON-EMPTY
tags, deduplicated by exact string match, ordered by first occurrence across
pages in page order; page tag lists `[["Acme","IRS"], ["IRS","John Smith"]]`
merge to `["Acme","IRS","John Smith"]`. -/
theorem merge_tags_union_dedup_first_seen (pages : List DocumentAnalysis) :
    (mergePages pages).tags =
      dedupFirstOccurrence
        (((pages.map (fun p => p.tags)).flatten).filter (fun t => t ≠ "")) ∧
    (mergePages [{ emptyAnalysis with summary := "S1", tags := ["Acme", "IRS"] },
                 { emptyAnalysis with summary := "S2", tags := ["IRS", "John Smith"] }]).tags
      = ["Acme", "IRS", "John Smith"] :=
  ⟨mergePages_tags_eq pages, by decide⟩

/-- C6, counterexample: for page summaries `["S1", ""]` the merged summary is
`"S1"`, not the `"\n\n"`-join `"S1\n\n"` of the texts of ALL pages — the
claim as stated fails when a page supplies an empty text. -/
theorem merge_text_concat_counterexample :
    (mergePages [{ emptyAnalysis with summary := "S1" }, emptyAnalysis]).summary ≠
      String.intercalate "\n\n"
        ([{ emptyAnalysis with summary := "S1" }, emptyAnalysis].map (fun p => p.summary)) := by
  decide

/-- C6, amended: the merged summary and transcription are the concatenation
of the NON-EMPTY per-page texts in page order, joined with `"\n\n"`; page
summaries `["S1","S2"]` merge to `"S1\n\nS2"`. -/
theorem merge_text_concat_nonempty (pages : List DocumentAnalysis) :
    (mergePages pages).summary =
      String.intercalate "\n\n"
        ((pages.map (fun p => p.summary)).filter (fun s => s ≠ "")) ∧
    (mergePages pages).transcription =
      String.intercalate "\n\n"
        ((pages.map (fun p => p.transcription)).filter (fun s => s ≠ "")) ∧
    (mergePages [{ emptyAnalysis with summary := "S1" },
                 { emptyAnalysis with summary := "S2" }]).summary = "S1\n\nS2" := by
  refine ⟨?_, ?_, by decide⟩
  · rw [show (mergePages pages).summary
        = String.intercalate "\n\n" (pages.foldl mergePage initState).summaries from rfl,
      foldl_mergePage_summaries]
    rfl
  · rw [show (mergePages pages).transcription
        = String.intercalate "\n\n" (pages.foldl mergePage initState).transcriptions from rfl,
      foldl_mergePage_transcriptions]
    rfl

/-- C10: the merged tag list never contains the empty string (a page tag
equal to `""` is silently dropped rather than unioned in) and contains no
duplicate entries. -/
theorem merge_tags_no_empty_no_dup (pages : List DocumentAnalysis) :
    "" ∉ (mergePages pages).tags ∧
    (mergePages pages).tags.Nodup ∧
    (mergePages [{ emptyAnalysis with tags := [""] }]).tags = [] := by
  rw [mergePages_tags_acc]
  exact ⟨dedupNonEmptyFrom_empty_not_mem _ [] (by simp),
         dedupNonEmptyFrom_nodup _ [] (by simp),
         by decide⟩

/-! ### Selective field policy — `UPDATE_FIELDS` parsing (cmd/batch/main.go 43-62) -/

/-- The full fixed field enumeration used when `UPDATE_FIELDS` is empty or
unset (the keys of the default `updateFields` map). -/
def defaultUpdateFields : List String :=
  ["title", "document_type", "document_date", "summary", "content", "correspondent", "tags"]

/-- Mirrors the `UPDATE_FIELDS` parsing of `cmd/batch/main.go`: if the input
is empty, the full default map; otherwise split on `","`, trim each token
(Go `strings.TrimSpace`), and insert every non-empty token as a key. The
result models the set of keys of the Go `updateFields` map — only
membership is ever consulted. -/
def parseUpdateFields (updateFieldsEnv : String) : List String :=
  if updateFieldsEnv = "" then defaultUpdateFields
  else
    (updateFieldsEnv.splitOn ",").foldl
      (fun acc f => if f.trim ≠ "" then acc ++ [f.trim] else acc) []

lemma parseUpdateFields_foldl_mem (toks : List String) :
    ∀ (acc : List String) (f : String),
      (f ∈ toks.foldl (fun acc f => if f.trim ≠ "" then acc ++ [f.trim] else acc) acc ↔
        f ∈ acc ∨ (f ∈ toks.map String.trim ∧ f ≠ "")) := by
  induction toks with
  | nil => intro acc f; simp
  | cons t ts ih =>
    intro acc f
    rw [List.foldl_cons]
    by_cases ht : t.trim = ""
    · rw [if_neg (by simp [ht]), ih]
      constructor
      · rintro (h | h)
        · exact Or.inl h
        · exact Or.inr ⟨by simp [h.1], h.2⟩
      · rintro (h | ⟨hmem, hne⟩)
        · exact Or.inl h
        · rcases (by simpa using hmem : f = t.trim ∨ f ∈ ts.map String.trim) with h | h
          · exact absurd (h.trans ht) hne
          · exact Or.inr ⟨h, hne⟩
    · rw [if_pos (by simp [ht]), ih]
      constructor
      · rintro (h | h)
        · rcases (by simpa using h : f ∈ acc ∨ f = t.trim) with h | h
          · exact Or.inl h
          · exact Or.inr ⟨by simp [h], h ▸ ht⟩
        · exact Or.inr ⟨by simp [h.1], h.2⟩
      · rintro (h | ⟨hmem, hne⟩)
        · exact Or.inl (by simp [h])
        · rcases (by simpa using hmem : f = t.trim ∨ f ∈ ts.map String.trim) with h | h
          · exact Or.inl (by simp [h])
          · exact Or.inr ⟨h, hne⟩

/-- C9: parsing the `UPDATE_FIELDS` configuration is a pure function of the
input string: the empty input yields the full fixed field enumeration, and
any non-empty input yields exactly the set of comma-separated tokens after
trimming whitespace and dropping empty tokens (unrecognized names are
accepted without validation). -/
theorem parse_update_fields_spec :
    parseUpdateFields "" = defaultUpdateFields ∧
    ∀ env f, env ≠ "" →
      (f ∈ parseUpdateFields env ↔ f ∈ (env.splitOn ",").map String.trim ∧ f ≠ "") := by
  refine ⟨rfl, fun env f henv => ?_⟩
  rw [parseUpdateFields, if_neg henv, parseUpdateFields_foldl_mem]
  simp

/-- Witness for C9 at a concrete input: `"title, ,x"` parses to exactly
`{"title", "x"}` (the unrecognized token `"x"` is accepted, the blank token
is dropped). -/
theorem parse_update_fields_spec_witness :
    ("title, ,x" : String) ≠ "" ∧
      ("x" ∈ parseUpdateFields "title, ,x" ↔
        "x" ∈ (("title, ,x" : String).splitOn ",").map String.trim ∧ ("x" : String) ≠ "") :=
  ⟨by decide, parse_update_fields_spec.2 "title, ,x" "x" (by decide)⟩

/-! ### Document store client — `ListUnprocessedDocuments`
(internal/paperless/client.go 442-481) -/

/-- A document of the external store together with the two custom-field
values the batch run consults on it: the integer processing marker
(`llm-process-id`, absent or set) and the boolean skip flag (`llm-skip`).
The store itself is an external collaborator; its three
`custom_field_query` predicates are evaluated over this model per the
documented operator semantics (`exists`, `lt`, `exact`). -/
structure StoreDoc where
  id : Nat
  title : String
  marker : Option Int
  skip : Bool
deriving DecidableEq

/-- Query 1 of `ListUnprocessedDocuments`:
`[fieldName, "exists", false]` — the marker field is absent. -/
def queryMarkerAbsent (store : List StoreDoc) : List StoreDoc :=
  store.filter (fun d => d.marker = none)

/-- Query 2 of `ListUnprocessedDocuments`:
`[fieldName, "lt", processID]` — the marker value is strictly below
`processID` (documents without the field do not match a value comparison). -/
def queryMarkerLt (store : List StoreDoc) (processID : Int) : List StoreDoc :=
  store.filter (fun d => match d.marker with | some v => v < processID | none => false)

/-- Skip query of `ListUnprocessedDocuments`:
`[skipFieldName, "exact", true]` — the skip field is true. -/
def querySkipTrue (store : List StoreDoc) : List StoreDoc :=
  store.filter (fun d => d.skip)

/-- The final loop of `ListUnprocessedDocuments`: iterate over the
concatenation of the two query results, keeping a document only if its id
was not seen before and is not in the skip set. -/
def dedupExcludeLoop (skipIDs : List Nat) :
    List StoreDoc → List Nat → List StoreDoc → List StoreDoc
  | [], _seen, result => result
  | d :: ds, seen, result =>
    if d.id ∉ seen ∧ d.id ∉ skipIDs then
      dedupExcludeLoop skipIDs ds (seen ++ [d.id]) (result ++ [d])
    else
      dedupExcludeLoop skipIDs ds seen result

set_option linter.unusedVariables false in
/-- `(*Client).ListUnprocessedDocuments(ctx, fieldName, processID, skipFieldName)`:
union of the "marker absent" and "marker < processID" queries, minus the
documents whose skip field is true (only when `skipFieldName` is non-empty),
deduplicated by id in encounter order. `fieldName` names the marker custom
field whose values the query model reads from `marker`. -/
def ListUnprocessedDocuments (store : List StoreDoc) (fieldName : String)
    (processID : Int) (skipFieldName : String) : List StoreDoc :=
  let nullDocs := queryMarkerAbsent store
  let ltDocs := queryMarkerLt store processID
  let skipIDs :=
    if skipFieldName ≠ "" then (querySkipTrue store).map (fun d => d.id) else []
  dedupExcludeLoop skipIDs (nullDocs ++ ltDocs) [] []

lemma dedupExcludeLoop_mem (skipIDs : List Nat) (docs : List StoreDoc) :
    ∀ (seen : List Nat) (result : List StoreDoc),
      (∀ x ∈ docs, ∀ y ∈ docs, x.id = y.id → x = y) →
      ∀ x, x ∈ dedupExcludeLoop skipIDs docs seen result ↔
        x ∈ result ∨ (x ∈ docs ∧ x.id ∉ seen ∧ x.id ∉ skipIDs) := by
  induction docs with
  | nil =>
    intro seen result _ x
    simp [dedupExcludeLoop]
  | cons d ds ih =>
    intro seen result hinj x
    have hinj' : ∀ x ∈ ds, ∀ y ∈ ds, x.id = y.id → x = y :=
      fun a ha b hb => hinj a (List.mem_cons_of_mem d ha) b (List.mem_cons_of_mem d hb)
    rw [dedupExcludeLoop]
    by_cases hc : d.id ∉ seen ∧ d.id ∉ skipIDs
    · rw [if_pos hc, ih _ _ hinj' x]
      constructor
      · rintro (h | ⟨hds, hseen, hskip⟩)
        · rcases List.mem_append.1 h with h | h
          · exact Or.inl h
          · have hxd : x = d := by simpa using h
            exact Or.inr ⟨by simp [hxd], hxd ▸ hc.1, hxd ▸ hc.2⟩
        · exact Or.inr ⟨List.mem_cons_of_mem d hds,
            fun hx => hseen (List.mem_append_left _ hx), hskip⟩
      · rintro (h | ⟨hmem, h1, h2⟩)
        · exact Or.inl (List.mem_append_left _ h)
        · rcases List.mem_cons.1 hmem with hxd | hds
          · exact Or.inl (List.mem_append_right _ (by simp [hxd]))
          · by_cases hid : x.id = d.id
            · have hxd : x = d := hinj x (List.mem_cons_of_mem d hds) d (by simp) hid
              exact Or.inl (List.mem_append_right _ (by simp [hxd]))
            · exact Or.inr ⟨hds, by simp [h1, hid], h2⟩
    · rw [if_neg hc, ih _ _ hinj' x]
      constructor
      · rintro (h | ⟨hds, h1, h2⟩)
        · exact Or.inl h
        · exact Or.inr ⟨List.mem_cons_of_mem d hds, h1, h2⟩
      · rintro (h | ⟨hmem, h1, h2⟩)
        · exact Or.inl h
        · rcases List.mem_cons.1 hmem with hxd | hds
          · exact absurd ⟨hxd ▸ h1, hxd ▸ h2⟩ hc
          · exact Or.inr ⟨hds, h1, h2⟩

lemma dedupExcludeLoop_nodup (skipIDs : List Nat) (docs : List StoreDoc) :
    ∀ (seen : List Nat) (result : List StoreDoc),
      seen.Nodup → seen = result.map (fun d => d.id) →
      ((dedupExcludeLoop skipIDs docs seen result).map (fun d => d.id)).Nodup := by
  induction docs with
  | nil =>
    intro seen result hnd hseen
    rw [dedupExcludeLoop, ← hseen]
    exact hnd
  | cons d ds ih =>
    intro seen result hnd hseen
    rw [dedupExcludeLoop]
    by_cases hc : d.id ∉ seen ∧ d.id ∉ skipIDs
    · rw [if_pos hc]
      exact ih _ _ (by simp [List.nodup_append, hnd, hc.1]) (by simp [hseen])
    · rw [if_neg hc]
      exact ih _ _ hnd hseen

lemma queryMarkerLt_mem (store : List StoreDoc) (V : Int) (d : StoreDoc) :
    d ∈ queryMarkerLt store V ↔ d ∈ store ∧ ∃ v, d.marker = some v ∧ v < V := by
  rw [queryMarkerLt, List.mem_filter]
  cases h : d.marker <;> simp [h]

lemma queryMarkerAbsent_mem (store : List StoreDoc) (d : StoreDoc) :
    d ∈ queryMarkerAbsent store ↔ d ∈ store ∧ d.marker = none := by
  rw [queryMarkerAbsent, List.mem_filter]
  simp

/-- C1: for every document `D` in the store (store ids distinct,
`skipFieldName` non-empty, as in the one production call), `D` is in the
result of `ListUnprocessedDocuments(fieldName, V, skipFieldName)` iff its
marker is absent or strictly below `V` and its skip field is not true; the
result lists each qualifying document exactly once (its ids are nodup) and
contains only store documents. -/
theorem list_unprocessed_spec (store : List StoreDoc) (fieldName : String) (V : Int)
    (skipFieldName : String) (hids : (store.map (fun d => d.id)).Nodup)
    (hskip : skipFieldName ≠ "") :
    (∀ d ∈ store,
      (d ∈ ListUnprocessedDocuments store fieldName V skipFieldName ↔
        (d.marker = none ∨ ∃ v, d.marker = some v ∧ v < V) ∧ d.skip = false)) ∧
    ((ListUnprocessedDocuments store fieldName V skipFieldName).map (fun d => d.id)).Nodup ∧
    (∀ d ∈ ListUnprocessedDocuments store fieldName V skipFieldName, d ∈ store) := by
  have hinjStore : ∀ x ∈ store, ∀ y ∈ store, x.id = y.id → x = y :=
    fun x hx y hy h => List.inj_on_of_nodup_map hids hx hy h
  have hdocs : ∀ x, x ∈ queryMarkerAbsent store ++ queryMarkerLt store V → x ∈ store := by
    intro x hx
    rcases List.mem_append.1 hx with h | h
    · exact ((queryMarkerAbsent_mem store x).1 h).1
    · exact ((queryMarkerLt_mem store V x).1 h).1
  have hinj : ∀ x ∈ queryMarkerAbsent store ++ queryMarkerLt store V,
      ∀ y ∈ queryMarkerAbsent store ++ queryMarkerLt store V, x.id = y.id → x = y :=
    fun x hx y hy => hinjStore x (hdocs x hx) y (hdocs y hy)
  have hskipIDs : ∀ d ∈ store,
      (d.id ∈ (querySkipTrue store).map (fun d => d.id) ↔ d.skip = true) := by
    intro d hd
    simp only [List.mem_map]
    constructor
    · rintro ⟨y, hy, hyid⟩
      have hy' := List.mem_filter.1 hy
      have : y = d := hinjStore y hy'.1 d hd hyid
      exact this ▸ hy'.2
    · intro h
      exact ⟨d, List.mem_filter.2 ⟨hd, h⟩, rfl⟩
  have hunfold : ListUnprocessedDocuments store fieldName V skipFieldName =
      dedupExcludeLoop ((querySkipTrue store).map (fun d => d.id))
        (queryMarkerAbsent store ++ queryMarkerLt store V) [] [] := by
    rw [ListUnprocessedDocuments, if_pos hskip]
  refine ⟨?_, ?_, ?_⟩
  · intro d hd
    rw [hunfold, dedupExcludeLoop_mem _ _ [] [] hinj d]
    constructor
    · rintro (h | ⟨hq, _, hns⟩)
      · exact absurd h (List.not_mem_nil d)
      · refine ⟨?_, ?_⟩
        · rcases List.mem_append.1 hq with h | h
          · exact Or.inl ((queryMarkerAbsent_mem store d).1 h).2
          · exact Or.inr ((queryMarkerLt_mem store V d).1 h).2
        · cases hsk : d.skip
          · rfl
          · exact absurd ((hskipIDs d hd).2 hsk) hns
    · rintro ⟨hq, hns⟩
      refine Or.inr ⟨?_, List.not_mem_nil _, fun hmem => ?_⟩
      · rcases hq with h | h
        · exact List.mem_append_left _ ((queryMarkerAbsent_mem store d).2 ⟨hd, h⟩)
        · exact List.mem_append_right _ ((queryMarkerLt_mem store V d).2 ⟨hd, h⟩)
      · rw [(hskipIDs d hd).1 hmem] at hns
        simp at hns
  · rw [hunfold]
    exact dedupExcludeLoop_nodup _ _ [] [] List.nodup_nil rfl
  · intro d hdm
    rw [hunfold, dedupExcludeLoop_mem _ _ [] [] hinj d] at hdm
    rcases hdm with h | ⟨h, _, _⟩
    · exact absurd h (List.not_mem_nil d)
    · exact hdocs d h

/-- A tiny concrete store for the C1 witness. -/
def storeW : List StoreDoc :=
  [⟨1, "a", none, false⟩, ⟨2, "b", some 3, false⟩,
   ⟨3, "c", some 9, false⟩, ⟨4, "d", none, true⟩]

/-- Witness for C1: in `storeW`, the document with id 2 (marker 3 < 5,
skip false) is listed by `ListUnprocessedDocuments` at version 5. -/
theorem list_unprocessed_spec_witness :
    (⟨2, "b", some 3, false⟩ : StoreDoc) ∈
      ListUnprocessedDocuments storeW "llm-process-id" 5 "llm-skip" :=
  ((list_unprocessed_spec storeW "llm-process-id" 5 "llm-skip" (by decide) (by decide)).1
      ⟨2, "b", some 3, false⟩ (by decide)).mpr
    ⟨Or.inr ⟨3, rfl, by decide⟩, rfl⟩

/-! ### Taxonomy ensure operations (internal/paperless/client.go 269-279, 363-373) -/

/-- Exact-name lookup in the run's name→id cache (the Go map access
`existing[name]`, modelled on the association list of inserted entries). -/
def lookupName : List (String × Nat) → String → Option Nat
  | [], _ => none
  | (k, v) :: rest, name => if k = name then some v else lookupName rest name

/-- `(*Client).EnsureTag(ctx, name, existing)`: return the cached id when
the name is present; otherwise call `CreateTag` (modelled by the `createTag`
oracle — `none` is a creation failure), record the new id in the cache, and
return it. -/
def ensureTag (createTag : String → Option Nat) (name : String)
    (existing : List (String × Nat)) : Option Nat × List (String × Nat) :=
  match lookupName existing name with
  | some id => (some id, existing)
  | none =>
    match createTag name with
    | some id => (some id, existing ++ [(name, id)])
    | none => (none, existing)

/-- `(*Client).EnsureCorrespondent(ctx, name, existing)`: identical shape to
`EnsureTag`, against the correspondent cache and the `CreateCorrespondent`
oracle. -/
def ensureCorrespondent (createCorrespondent : String → Option Nat) (name : String)
    (existing : List (String × Nat)) : Option Nat × List (String × Nat) :=
  match lookupName existing name with
  | some id => (some id, existing)
  | none =>
    match createCorrespondent name with
    | some id => (some id, existing ++ [(name, id)])
    | none => (none, existing)

lemma lookupName_append_self (cache : List (String × Nat)) (name : String) (id : Nat)
    (h : lookupName cache name = none) :
    lookupName (cache ++ [(name, id)]) name = some id := by
  induction cache with
  | nil => simp [lookupName]
  | cons kv rest ih =>
    rcases kv with ⟨k, v⟩
    rw [lookupName] at h
    rw [List.cons_append, lookupName]
    by_cases hk : k = name
    · rw [if_pos hk] at h
      exact absurd h (by simp)
    · rw [if_neg hk] at h ⊢
      exact ih h

lemma ensureTag_cached (createTag : String → Option Nat) (name : String)
    (cache : List (String × Nat)) (id : Nat) (h : lookupName cache name = some id) :
    ensureTag createTag name cache = (some id, cache) := by
  rw [ensureTag, h]

lemma ensureCorrespondent_cached (createCorrespondent : String → Option Nat) (name : String)
    (cache : List (String × Nat)) (id : Nat) (h : lookupName cache name = some id) :
    ensureCorrespondent createCorrespondent name cache = (some id, cache) := by
  rw [ensureCorrespondent, h]

lemma ensureTag_stable (createTag : String → Option Nat) (name : String)
    (cache cache' : List (String × Nat)) (id : Nat)
    (h : ensureTag createTag name cache = (some id, cache')) :
    lookupName cache' name = some id := by
  unfold ensureTag at h
  split at h
  · rename_i j hl
    simp only [Prod.mk.injEq, Option.some.injEq] at h
    obtain ⟨rfl, rfl⟩ := h
    exact hl
  · rename_i hl
    split at h
    · rename_i k hc
      simp only [Prod.mk.injEq, Option.some.injEq] at h
      obtain ⟨rfl, rfl⟩ := h
      exact lookupName_append_self cache name k hl
    · simp at h

lemma ensureCorrespondent_stable (createCorrespondent : String → Option Nat) (name : String)
    (cache cache' : List (String × Nat)) (id : Nat)
    (h : ensureCorrespondent createCorrespondent name cache = (some id, cache')) :
    lookupName cache' name = some id := by
  unfold ensureCorrespondent at h
  split at h
  · rename_i j hl
    simp only [Prod.mk.injEq, Option.some.injEq] at h
    obtain ⟨rfl, rfl⟩ := h
    exact hl
  · rename_i hl
    split at h
    · rename_i k hc
      simp only [Prod.mk.injEq, Option.some.injEq] at h
      obtain ⟨rfl, rfl⟩ := h
      exact lookupName_append_self cache name k hl
    · simp at h

/-- C7: `EnsureTag` and `EnsureCorrespondent` are idempotent within a run
with respect to the name→id cache: a cache hit returns the cached id and
leaves the cache unchanged (no creation call); and after any successful
call, every repeated call with the same name on the resulting cache returns
the same id and the same cache (so no second entity is ever created for the
name). -/
theorem ensure_taxonomy_idempotent (create : String → Option Nat) (name : String)
    (cache cache' : List (String × Nat)) (id : Nat) :
    (lookupName cache name = some id → ensureTag create name cache = (some id, cache)) ∧
    (ensureTag create name cache = (some id, cache') →
      ensureTag create name cache' = (some id, cache')) ∧
    (lookupName cache name = some id →
      ensureCorrespondent create name cache = (some id, cache)) ∧
    (ensureCorrespondent create name cache = (some id, cache') →
      ensureCorrespondent create name cache' = (some id, cache')) := by
  refine ⟨ensureTag_cached create name cache id, fun h => ?_,
          ensureCorrespondent_cached create name cache id, fun h => ?_⟩
  · exact ensureTag_cached create name cache' id (ensureTag_stable create name cache cache' id h)
  · exact ensureCorrespondent_cached create name cache' id
      (ensureCorrespondent_stable create name cache cache' id h)

/-- Witness for C7: with an oracle that assigns id 42, the first `ensureTag`
call for `"irs"` on the empty cache creates and caches 42, and the repeated
call on the resulting cache returns 42 without change. -/
theorem ensure_taxonomy_idempotent_witness :
    ensureTag (fun _ => some 42) "irs" [("irs", 42)] = (some 42, [("irs", 42)]) :=
  (ensure_taxonomy_idempotent (fun _ => some 42) "irs" [] [("irs", 42)] 42).2.1 (by decide)

/-! ### The per-document pipeline and update payload (cmd/batch/main.go 139-282) -/

/-- A custom-field value in the update payload (Go `interface{}`; the code
writes the integer `processID` and the strings `ollamaModel` and
`merged.Summary`). -/
inductive CFValue where
  | int (n : Int)
  | str (s : String)
deriving DecidableEq

/-- Mirrors `paperless.DocumentUpdate`: a field absent from the PATCH body
(`omitempty`) is `none` (or `[]` for the tags array). -/
structure DocumentUpdate where
  title : Option String := none
  content : Option String := none
  document_type : Option Nat := none
  correspondent : Option Nat := none
  tags : List Nat := []
  created : Option String := none
  custom_fields : List (Nat × CFValue) := []
deriving DecidableEq

/-- The per-run environment of the batch main: the parsed `UPDATE_FIELDS`
mask (membership models the Go map lookup), the process version, the ids of
the four ensured custom fields that the payload writes, the model name, the
document-type name→id map loaded at startup, and the two external creation
endpoints as oracles (`none` = the HTTP creation failed). -/
structure BatchEnv where
  updateFields : List String
  processID : Int
  processCFID : Nat
  summaryCFID : Nat
  modelCFID : Nat
  ollamaModel : String
  docTypeIDByName : List (String × Nat)
  createCorrespondent : String → Option Nat
  createTag : String → Option Nat

/-- The two in-run taxonomy caches (`corrIDByName`, `tagIDByName`),
mutated across documents by the ensure calls. -/
structure Caches where
  corr : List (String × Nat)
  tags : List (String × Nat)
deriving DecidableEq

/-- The tag-resolution loop (main.go 261-269): ensure each merged tag name,
collecting the resolved ids in order; a failed ensure logs a warning and
continues with the next name. -/
def collectTagIDs (createTag : String → Option Nat) :
    List String → List (String × Nat) → List Nat × List (String × Nat)
  | [], cache => ([], cache)
  | name :: rest, cache =>
    match ensureTag createTag name cache with
    | (some id, cache1) =>
      (id :: (collectTagIDs createTag rest cache1).1, (collectTagIDs createTag rest cache1).2)
    | (none, cache1) => collectTagIDs createTag rest cache1

/-- main.go 219-224: every update starts with the processing-marker and
model-identifier custom fields. -/
def baseUpdate (env : BatchEnv) : DocumentUpdate :=
  { custom_fields := [(env.processCFID, CFValue.int env.processID),
                      (env.modelCFID, CFValue.str env.ollamaModel)] }

/-- main.go 226-248, the mask-guarded non-taxonomy fields: title whenever
masked (even when empty), the summary custom field whenever masked (even
when empty), content and created only when the merged value is non-empty,
document_type only when the merged name is in the loaded name→id map
(otherwise a warning and no type update). -/
def applyScalarFields (env : BatchEnv) (merged : DocumentAnalysis)
    (u : DocumentUpdate) : DocumentUpdate :=
  let u1 := if "title" ∈ env.updateFields then { u with title := some merged.file_name } else u
  let u2 := if "summary" ∈ env.updateFields then
      { u1 with custom_fields :=
          u1.custom_fields ++ [(env.summaryCFID, CFValue.str merged.summary)] }
    else u1
  let u3 := if "content" ∈ env.updateFields ∧ merged.transcription ≠ "" then
      { u2 with content := some merged.transcription } else u2
  let u4 := if "document_type" ∈ env.updateFields then
      match lookupName env.docTypeIDByName merged.document_type with
      | some dtID => { u3 with document_type := some dtID }
      | none => u3
    else u3
  if "document_date" ∈ env.updateFields ∧ merged.document_date ≠ "" then
    { u4 with created := some merged.document_date }
  else u4

/-- main.go 250-258: resolve the correspondent when masked and non-empty; a
failed ensure is a warning and leaves the field absent. -/
def applyCorrespondent (env : BatchEnv) (merged : DocumentAnalysis)
    (u : DocumentUpdate) (corrCache : List (String × Nat)) :
    DocumentUpdate × List (String × Nat) :=
  if "correspondent" ∈ env.updateFields ∧ merged.correspondent ≠ "" then
    match ensureCorrespondent env.createCorrespondent merged.correspondent corrCache with
    | (some cid, c1) => ({ u with correspondent := some cid }, c1)
    | (none, c1) => (u, c1)
  else (u, corrCache)

/-- main.go 260-274: resolve the tags when masked and non-empty; the tags
field is set only when at least one id was resolved. -/
def applyTags (env : BatchEnv) (merged : DocumentAnalysis)
    (u : DocumentUpdate) (tagCache : List (String × Nat)) :
    DocumentUpdate × List (String × Nat) :=
  if "tags" ∈ env.updateFields ∧ merged.tags ≠ [] then
    ((if (collectTagIDs env.createTag merged.tags tagCache).1 ≠ [] then
        { u with tags := (collectTagIDs env.createTag merged.tags tagCache).1 }
      else u),
     (collectTagIDs env.createTag merged.tags tagCache).2)
  else (u, tagCache)

/-- main.go 219-274: the full update payload built from a merged analysis,
threading both taxonomy caches. -/
def buildUpdate (env : BatchEnv) (caches : Caches) (merged : DocumentAnalysis) :
    DocumentUpdate × Caches :=
  ((applyTags env merged
      (applyCorrespondent env merged (applyScalarFields env merged (baseUpdate env))
        caches.corr).1 caches.tags).1,
   ⟨(applyCorrespondent env merged (applyScalarFields env merged (baseUpdate env))
        caches.corr).2,
    (applyTags env merged
      (applyCorrespondent env merged (applyScalarFields env merged (baseUpdate env))
        caches.corr).1 caches.tags).2⟩)

/-- The terminal state of one document in the run: either no update call was
issued (download / conversion / page-analysis failure — the loop logs and
continues), or a PATCH was issued with the built payload. -/
inductive DocOutcome where
  | skippedNoUpdate
  | updateIssued (docID : Nat) (u : DocumentUpdate)
deriving DecidableEq

/-- The external interactions of one document: its id and title from the
listing, whether `DownloadDocument` succeeded, whether `fileToBase64Images`
succeeded, and the outcome of `AnalyzeStructured` for each page in order
(`none` = the analysis of that page returned an error). -/
structure DocInput where
  docID : Nat
  title : String
  downloadOK : Bool
  convertOK : Bool
  pages : List (Option DocumentAnalysis)

/-- The page loop (main.go 162-200) with its break-on-error: merge each
successful page result in order, stopping at the first failing page;
returns the loop state and the `analyzeErr` flag. -/
def analyzePages : List (Option DocumentAnalysis) → MergeState → MergeState × Bool
  | [], st => (st, false)
  | none :: _, st => (st, true)
  | some p :: rest, st => analyzePages rest (mergePage st p)

/-- The merged analysis a fully successful page loop produces. -/
def mergedOfPages (pages : List (Option DocumentAnalysis)) : DocumentAnalysis :=
  finalizeMerge (analyzePages pages initState).1

/-- One iteration of the document loop (main.go 139-282): a download,
conversion or page-analysis failure skips the document (`continue`) without
touching the caches and without issuing any update; otherwise the update is
issued with the payload built from the merged analysis. -/
def processDocument (env : BatchEnv) (caches : Caches) (inp : DocInput) :
    DocOutcome × Caches :=
  if inp.downloadOK = false then (DocOutcome.skippedNoUpdate, caches)
  else if inp.convertOK = false then (DocOutcome.skippedNoUpdate, caches)
  else if (analyzePages inp.pages initState).2 then (DocOutcome.skippedNoUpdate, caches)
  else
    (DocOutcome.updateIssued inp.docID
       (buildUpdate env caches (finalizeMerge (analyzePages inp.pages initState).1)).1,
     (buildUpdate env caches (finalizeMerge (analyzePages inp.pages initState).1)).2)

/-- The whole document loop over the run's unprocessed list, threading the
taxonomy caches and collecting each document's outcome in order. -/
def runBatch (env : BatchEnv) (caches : Caches) :
    List DocInput → List DocOutcome × Caches
  | [] => ([], caches)
  | d :: ds =>
    ((processDocument env caches d).1 ::
       (runBatch env (processDocument env caches d).2 ds).1,
     (runBatch env (processDocument env caches d).2 ds).2)

/-! ### C2 — partial-failure isolation -/

/-- The page loop stops at the first failing page: pages after it are never
consumed, and the loop reports the error flag. -/
lemma analyzePages_fail (pre post : List (Option DocumentAnalysis)) (st : MergeState) :
    analyzePages (pre ++ none :: post) st = ((analyzePages pre st).1, true) := by
  induction pre generalizing st with
  | nil => rfl
  | cons o os ih =>
    cases o with
    | none => rfl
    | some p => exact ih (mergePage st p)

lemma processDocument_skip_of_page_failure (env : BatchEnv) (caches : Caches)
    (inp : DocInput) (pre post : List (Option DocumentAnalysis))
    (hdl : inp.downloadOK = true) (hcv : inp.convertOK = true)
    (hp : inp.pages = pre ++ none :: post) :
    processDocument env caches inp = (DocOutcome.skippedNoUpdate, caches) := by
  rw [processDocument, hdl, hcv, hp, analyzePages_fail]
  simp

lemma runBatch_append (env : BatchEnv) (caches : Caches) (l1 l2 : List DocInput) :
    runBatch env caches (l1 ++ l2) =
      ((runBatch env caches l1).1 ++ (runBatch env (runBatch env caches l1).2 l2).1,
       (runBatch env (runBatch env caches l1).2 l2).2) := by
  induction l1 generalizing caches with
  | nil => simp [runBatch]
  | cons d ds ih => simp [runBatch, ih]

/-- C2: a document with a failing page stops at that page (later pages are
not consumed), is skipped with no update issued and no cache change, and
the outcomes of every other document of the run are exactly those of the
run without it: the documents before it are processed identically, and the
documents after it are processed from the same cache state they would have
seen had the failing document not been in the run. -/
theorem page_failure_isolated (env : BatchEnv) (caches : Caches)
    (before after : List DocInput) (d : DocInput)
    (pre post : List (Option DocumentAnalysis))
    (hdl : d.downloadOK = true) (hcv : d.convertOK = true)
    (hp : d.pages = pre ++ none :: post) :
    processDocument env caches d = (DocOutcome.skippedNoUpdate, caches) ∧
    analyzePages d.pages initState = ((analyzePages pre initState).1, true) ∧
    runBatch env caches (before ++ d :: after) =
      ((runBatch env caches before).1 ++
         DocOutcome.skippedNoUpdate :: (runBatch env (runBatch env caches before).2 after).1,
       (runBatch env (runBatch env caches before).2 after).2) := by
  refine ⟨processDocument_skip_of_page_failure env caches d pre post hdl hcv hp,
          by rw [hp]; exact analyzePages_fail pre post initState, ?_⟩
  rw [runBatch_append]
  rw [show runBatch env (runBatch env caches before).2 (d :: after) =
        (DocOutcome.skippedNoUpdate ::
           (runBatch env (runBatch env caches before).2 after).1,
         (runBatch env (runBatch env caches before).2 after).2) from by
    rw [runBatch,
      processDocument_skip_of_page_failure env _ d pre post hdl hcv hp]]

/-- Concrete environment shared by the pipeline witnesses: full default
mask, process version 5, custom-field ids 1/2/3, one known document type. -/
def envW : BatchEnv :=
  { updateFields := defaultUpdateFields, processID := 5, processCFID := 1,
    summaryCFID := 2, modelCFID := 3, ollamaModel := "m",
    docTypeIDByName := [("Invoice", 9)],
    createCorrespondent := fun _ => none, createTag := fun _ => none }

/-- A document whose second page fails analysis. -/
def dFailW : DocInput :=
  { docID := 7, title := "t", downloadOK := true, convertOK := true,
    pages := [some emptyAnalysis, none] }

/-- Witness for C2: the concrete failing document is skipped with no update
and no cache change. -/
theorem page_failure_isolated_witness :
    processDocument envW ⟨[], []⟩ dFailW = (DocOutcome.skippedNoUpdate, ⟨[], []⟩) :=
  (page_failure_isolated envW ⟨[], []⟩ [] [] dFailW [some emptyAnalysis] [] rfl rfl rfl).1

/-! ### C3, C8 — the update payload -/

lemma buildUpdate_fst (env : BatchEnv) (caches : Caches) (merged : DocumentAnalysis) :
    (buildUpdate env caches merged).1 =
      (applyTags env merged
        (applyCorrespondent env merged (applyScalarFields env merged (baseUpdate env))
          caches.corr).1 caches.tags).1 := rfl

lemma applyScalarFields_custom_fields_mem (env : BatchEnv) (merged : DocumentAnalysis)
    (u : DocumentUpdate) (x : Nat × CFValue) (hx : x ∈ u.custom_fields) :
    x ∈ (applyScalarFields env merged u).custom_fields := by
  simp only [applyScalarFields]
  repeat' split
  all_goals simp_all [List.mem_append]

lemma applyScalarFields_title (env : BatchEnv) (merged : DocumentAnalysis)
    (u : DocumentUpdate) :
    (applyScalarFields env merged u).title =
      if "title" ∈ env.updateFields then some merged.file_name else u.title := by
  simp only [applyScalarFields]
  repeat' split
  all_goals simp_all

lemma applyScalarFields_summary_mem (env : BatchEnv) (merged : DocumentAnalysis)
    (u : DocumentUpdate) (h : "summary" ∈ env.updateFields) :
    (env.summaryCFID, CFValue.str merged.summary) ∈
      (applyScalarFields env merged u).custom_fields := by
  simp only [applyScalarFields]
  repeat' split
  all_goals simp_all [List.mem_append]

lemma applyScalarFields_content (env : BatchEnv) (merged : DocumentAnalysis)
    (u : DocumentUpdate) :
    (applyScalarFields env merged u).content =
      if "content" ∈ env.updateFields ∧ merged.transcription ≠ "" then
        some merged.transcription
      else u.content := by
  simp only [applyScalarFields]
  repeat' split
  all_goals simp_all

lemma applyScalarFields_created (env : BatchEnv) (merged : DocumentAnalysis)
    (u : DocumentUpdate) :
    (applyScalarFields env merged u).created =
      if "document_date" ∈ env.updateFields ∧ merged.document_date ≠ "" then
        some merged.document_date
      else u.created := by
  simp only [applyScalarFields]
  repeat' split
  all_goals simp_all

lemma applyScalarFields_document_type (env : BatchEnv) (merged : DocumentAnalysis)
    (u : DocumentUpdate) :
    (applyScalarFields env merged u).document_type =
      if "document_type" ∈ env.updateFields then
        match lookupName env.docTypeIDByName merged.document_type with
        | some dtID => some dtID
        | none => u.document_type
      else u.document_type := by
  simp only [applyScalarFields]
  repeat' split
  all_goals simp_all

lemma applyScalarFields_correspondent (env : BatchEnv) (merged : DocumentAnalysis)
    (u : DocumentUpdate) :
    (applyScalarFields env merged u).correspondent = u.correspondent := by
  simp only [applyScalarFields]
  repeat' split
  all_goals simp_all

lemma applyScalarFields_tags (env : BatchEnv) (merged : DocumentAnalysis)
    (u : DocumentUpdate) :
    (applyScalarFields env merged u).tags = u.tags := by
  simp only [applyScalarFields]
  repeat' split
  all_goals simp_all

lemma applyCorrespondent_custom_fields (env : BatchEnv) (merged : DocumentAnalysis)
    (u : DocumentUpdate) (c : List (String × Nat)) :
    (applyCorrespondent env merged u c).1.custom_fields = u.custom_fields := by
  simp only [applyCorrespondent]
  repeat' split
  all_goals simp_all

lemma applyCorrespondent_title (env : BatchEnv) (merged : DocumentAnalysis)
    (u : DocumentUpdate) (c : List (String × Nat)) :
    (applyCorrespondent env merged u c).1.title = u.title := by
  simp only [applyCorrespondent]
  repeat' split
  all_goals simp_all

lemma applyCorrespondent_content (env : BatchEnv) (merged : DocumentAnalysis)
    (u : DocumentUpdate) (c : List (String × Nat)) :
    (applyCorrespondent env merged u c).1.content = u.content := by
  simp only [applyCorrespondent]
  repeat' split
  all_goals simp_all

lemma applyCorrespondent_created (env : BatchEnv) (merged : DocumentAnalysis)
    (u : DocumentUpdate) (c : List (String × Nat)) :
    (applyCorrespondent env merged u c).1.created = u.created := by
  simp only [applyCorrespondent]
  repeat' split
  all_goals simp_all

lemma applyCorrespondent_document_type (env : BatchEnv) (merged : DocumentAnalysis)
    (u : DocumentUpdate) (c : List (String × Nat)) :
    (applyCorrespondent env merged u c).1.document_type = u.document_type := by
  simp only [applyCorrespondent]
  repeat' split
  all_goals simp_all

lemma applyCorrespondent_tags (env : BatchEnv) (merged : DocumentAnalysis)
    (u : DocumentUpdate) (c : List (String × Nat)) :
    (applyCorrespondent env merged u c).1.tags = u.tags := by
  simp only [applyCorrespondent]
  repeat' split
  all_goals simp_all

lemma applyCorrespondent_of_empty (env : BatchEnv) (merged : DocumentAnalysis)
    (u : DocumentUpdate) (c : List (String × Nat)) (h : merged.correspondent = "") :
    applyCorrespondent env merged u c = (u, c) := by
  simp [applyCorrespondent, h]

lemma applyTags_custom_fields (env : BatchEnv) (merged : DocumentAnalysis)
    (u : DocumentUpdate) (c : List (String × Nat)) :
    (applyTags env merged u c).1.custom_fields = u.custom_fields := by
  simp only [applyTags]
  repeat' split
  all_goals simp_all

lemma applyTags_title (env : BatchEnv) (merged : DocumentAnalysis)
    (u : DocumentUpdate) (c : List (String × Nat)) :
    (applyTags env merged u c).1.title = u.title := by
  simp only [applyTags]
  repeat' split
  all_goals simp_all

lemma applyTags_content (env : BatchEnv) (merged : DocumentAnalysis)
    (u : DocumentUpdate) (c : List (String × Nat)) :
    (applyTags env merged u c).1.content = u.content := by
  simp only [applyTags]
  repeat' split
  all_goals simp_all

lemma applyTags_created (env : BatchEnv) (merged : DocumentAnalysis)
    (u : DocumentUpdate) (c : List (String × Nat)) :
    (applyTags env merged u c).1.created = u.created := by
  simp only [applyTags]
  repeat' split
  all_goals simp_all

lemma applyTags_document_type (env : BatchEnv) (merged : DocumentAnalysis)
    (u : DocumentUpdate) (c : List (String × Nat)) :
    (applyTags env merged u c).1.document_type = u.document_type := by
  simp only [applyTags]
  repeat' split
  all_goals simp_all

lemma applyTags_correspondent (env : BatchEnv) (merged : DocumentAnalysis)
    (u : DocumentUpdate) (c : List (String × Nat)) :
    (applyTags env merged u c).1.correspondent = u.correspondent := by
  simp only [applyTags]
  repeat' split
  all_goals simp_all

lemma applyTags_of_empty (env : BatchEnv) (merged : DocumentAnalysis)
    (u : DocumentUpdate) (c : List (String × Nat)) (h : merged.tags = []) :
    applyTags env merged u c = (u, c) := by
  simp [applyTags, h]

/-- Both run-constant custom fields are present in every built payload. -/
lemma buildUpdate_marker_model (env : BatchEnv) (caches : Caches)
    (merged : DocumentAnalysis) :
    (env.processCFID, CFValue.int env.processID) ∈
      (buildUpdate env caches merged).1.custom_fields ∧
    (env.modelCFID, CFValue.str env.ollamaModel) ∈
      (buildUpdate env caches merged).1.custom_fields := by
  rw [buildUpdate_fst, applyTags_custom_fields, applyCorrespondent_custom_fields]
  exact ⟨applyScalarFields_custom_fields_mem env merged _ _ (by simp [baseUpdate]),
         applyScalarFields_custom_fields_mem env merged _ _ (by simp [baseUpdate])⟩

/-- C3, counterexample: with the full default mask and a document whose
single page yields an all-empty analysis, the issued payload DOES contain a
semantic field with an empty merged value — the title is written as
`some ""` (and the summary custom field is written as the empty string) —
so "never contains a semantic field whose merged value is the empty string"
fails as stated. -/
theorem update_payload_counterexample :
    (processDocument envW ⟨[], []⟩
        { docID := 7, title := "t", downloadOK := true, convertOK := true,
          pages := [some emptyAnalysis] }).1 =
      DocOutcome.updateIssued 7
        { title := some "",
          custom_fields :=
            [(1, CFValue.int 5), (3, CFValue.str "m"), (2, CFValue.str "")] } := by
  rfl

/-- C3, amended: in every built payload the processing-marker and
model-identifier custom fields are present, and the `content`,
`created` (document date), `correspondent` and `tags` fields are omitted
whenever the corresponding merged value is empty; however, the `title`
field and the summary custom field are written whenever masked, even when
the merged value is the empty string. The marker/model presence holds for
every payload the pipeline actually issues. -/
theorem update_payload_fields (env : BatchEnv) (caches : Caches)
    (merged : DocumentAnalysis) :
    ((env.processCFID, CFValue.int env.processID) ∈
      (buildUpdate env caches merged).1.custom_fields) ∧
    ((env.modelCFID, CFValue.str env.ollamaModel) ∈
      (buildUpdate env caches merged).1.custom_fields) ∧
    ("title" ∈ env.updateFields →
      (buildUpdate env caches merged).1.title = some merged.file_name) ∧
    ("summary" ∈ env.updateFields →
      (env.summaryCFID, CFValue.str merged.summary) ∈
        (buildUpdate env caches merged).1.custom_fields) ∧
    (merged.transcription = "" → (buildUpdate env caches merged).1.content = none) ∧
    (merged.document_date = "" → (buildUpdate env caches merged).1.created = none) ∧
    (merged.correspondent = "" → (buildUpdate env caches merged).1.correspondent = none) ∧
    (merged.tags = [] → (buildUpdate env caches merged).1.tags = []) ∧
    (∀ (inp : DocInput) (docID : Nat) (u : DocumentUpdate) (caches' : Caches),
      processDocument env caches inp = (DocOutcome.updateIssued docID u, caches') →
      (env.processCFID, CFValue.int env.processID) ∈ u.custom_fields ∧
      (env.modelCFID, CFValue.str env.ollamaModel) ∈ u.custom_fields) := by
  obtain ⟨hm1, hm2⟩ := buildUpdate_marker_model env caches merged
  refine ⟨hm1, hm2, ?_, ?_, ?_, ?_, ?_, ?_, ?_⟩
  · intro h
    rw [buildUpdate_fst, applyTags_title, applyCorrespondent_title,
      applyScalarFields_title]
    rw [if_pos h]
  · intro h
    rw [buildUpdate_fst, applyTags_custom_fields, applyCorrespondent_custom_fields]
    exact applyScalarFields_summary_mem env merged _ h
  · intro h
    rw [buildUpdate_fst, applyTags_content, applyCorrespondent_content,
      applyScalarFields_content]
    simp [h, baseUpdate]
  · intro h
    rw [buildUpdate_fst, applyTags_created, applyCorrespondent_created,
      applyScalarFields_created]
    simp [h, baseUpdate]
  · intro h
    rw [buildUpdate_fst, applyTags_correspondent, applyCorrespondent_of_empty _ _ _ _ h,
      applyScalarFields_correspondent]
    rfl
  · intro h
    rw [buildUpdate_fst, applyTags_of_empty _ _ _ _ h, applyCorrespondent_tags,
      applyScalarFields_tags]
    rfl
  · intro inp docID u caches' h
    rw [processDocument] at h
    split at h
    · exact absurd (congrArg Prod.fst h) (by simp)
    · split at h
      · exact absurd (congrArg Prod.fst h) (by simp)
      · split at h
        · exact absurd (congrArg Prod.fst h) (by simp)
        · simp only [Prod.mk.injEq, DocOutcome.updateIssued.injEq] at h
          obtain ⟨⟨_, rfl⟩, _⟩ := h
          exact buildUpdate_marker_model env caches _

/-- Witness for C3's pipeline conjunct: for the concrete all-empty one-page
document, the issued payload carries the marker and model custom fields. -/
theorem update_payload_fields_witness :
    ((1 : Nat), CFValue.int 5) ∈
      (DocumentUpdate.mk (some "") none none none [] none
        [(1, CFValue.int 5), (3, CFValue.str "m"), (2, CFValue.str "")]).custom_fields ∧
    ((3 : Nat), CFValue.str "m") ∈
      (DocumentUpdate.mk (some "") none none none [] none
        [(1, CFValue.int 5), (3, CFValue.str "m"), (2, CFValue.str "")]).custom_fields :=
  (update_payload_fields envW ⟨[], []⟩
      (mergedOfPages [some emptyAnalysis])).2.2.2.2.2.2.2.2
    { docID := 7, title := "t", downloadOK := true, convertOK := true,
      pages := [some emptyAnalysis] }
    7
    (DocumentUpdate.mk (some "") none none none [] none
      [(1, CFValue.int 5), (3, CFValue.str "m"), (2, CFValue.str "")])
    ⟨[], []⟩
    (by rfl)

/-- The page loop reports no error when every page analysis succeeded. -/
lemma analyzePages_ok (pages : List (Option DocumentAnalysis)) (st : MergeState)
    (h : none ∉ pages) : (analyzePages pages st).2 = false := by
  induction pages generalizing st with
  | nil => rfl
  | cons o os ih =>
    cases o with
    | none => exact absurd (by simp) h
    | some p =>
      rw [show analyzePages (some p :: os) st = analyzePages os (mergePage st p) from rfl]
      exact ih (mergePage st p) (fun hm => h (List.mem_cons_of_mem _ hm))

/-- A document whose download, conversion and every page analysis succeed
reaches the update call, with the payload built from the merged analysis. -/
lemma processDocument_issue (env : BatchEnv) (caches : Caches) (inp : DocInput)
    (hdl : inp.downloadOK = true) (hcv : inp.convertOK = true)
    (hok : none ∉ inp.pages) :
    processDocument env caches inp =
      (DocOutcome.updateIssued inp.docID
        (buildUpdate env caches (mergedOfPages inp.pages)).1,
       (buildUpdate env caches (mergedOfPages inp.pages)).2) := by
  rw [processDocument, hdl, hcv]
  simp [analyzePages_ok inp.pages initState hok, mergedOfPages]

/-- C8: when the merged document type is not in the loaded name→id map, the
document still reaches the update call (the unknown value is never fatal),
and the issued payload omits the `document_type` field. -/
theorem unknown_document_type_nonfatal (env : BatchEnv) (caches : Caches)
    (inp : DocInput)
    (hdl : inp.downloadOK = true) (hcv : inp.convertOK = true)
    (hok : none ∉ inp.pages)
    (hunknown :
      lookupName env.docTypeIDByName (mergedOfPages inp.pages).document_type = none) :
    processDocument env caches inp =
      (DocOutcome.updateIssued inp.docID
        (buildUpdate env caches (mergedOfPages inp.pages)).1,
       (buildUpdate env caches (mergedOfPages inp.pages)).2) ∧
    (buildUpdate env caches (mergedOfPages inp.pages)).1.document_type = none := by
  refine ⟨processDocument_issue env caches inp hdl hcv hok, ?_⟩
  rw [buildUpdate_fst, applyTags_document_type, applyCorrespondent_document_type,
    applyScalarFields_document_type, hunknown]
  simp [baseUpdate]

/-- A document whose single page reports the type "Letter", unknown to
`envW`'s map (which only knows "Invoice"). -/
def dLetterW : DocInput :=
  { docID := 8, title := "t", downloadOK := true, convertOK := true,
    pages := [some { emptyAnalysis with document_type := "Letter" }] }

/-- Witness for C8: the concrete unknown-type document is updated with the
type field omitted. -/
theorem unknown_document_type_nonfatal_witness :
    (buildUpdate envW ⟨[], []⟩ (mergedOfPages dLetterW.pages)).1.document_type = none :=
  (unknown_document_type_nonfatal envW ⟨[], []⟩ dLetterW rfl rfl (by decide) (by rfl)).2

end PaperlessLLM
